import Mathlib

/-!
Shallow embedding of the two-machine flow-shop scheduler in `src/flow.py`
(Johnson's rule sequencer, schedule simulator, delay/utilization metrics,
and the validation performed by the "Calculate" button handler).

Numeric processing times are modelled as rationals; Python's fallible
operations (indexing an empty list, dividing by zero) are modelled with
`Except`, the error string recording the exception Python would raise.
-/

namespace FlowShop

/-- The key Python's `min(tasks, key=lambda x: min(x[1]))` minimises:
the smaller of a task's two processing times. -/
def jkey (x : ℕ × ℚ × ℚ) : ℚ := min x.2.1 x.2.2

/-- One iteration of the `while tasks:` loop body's selection and removal:
`min(tasks, key=...)` returns the first element of `tasks` (in current list
order) whose key is minimal, and `tasks.remove(...)` deletes that element,
keeping the rest in order.  Returns the selected task and the remaining list. -/
def extractMin : List (ℕ × ℚ × ℚ) → Option ((ℕ × ℚ × ℚ) × List (ℕ × ℚ × ℚ))
  | [] => none
  | x :: xs =>
    match extractMin xs with
    | none => some (x, [])
    | some (m, rest) =>
      if jkey x ≤ jkey m then some (x, xs) else some (m, x :: rest)

/-- The `while tasks:` loop of `johnsons_rule`, with fuel bounding the number
of iterations (each iteration removes one task, so fuel `tasks.length`
reproduces the loop exactly).  `left`/`right` are the two partial sequences;
a selected task goes to the end of `left` when `p1 <= p2`, else to the front
of `right`. -/
def johnsonLoop : ℕ → List (ℕ × ℚ × ℚ) → List ℕ → List ℕ → List ℕ × List ℕ
  | 0, _, left, right => (left, right)
  | fuel + 1, tasks, left, right =>
    match extractMin tasks with
    | none => (left, right)
    | some ((idx, p1, p2), rest) =>
      if p1 ≤ p2 then johnsonLoop fuel rest (left ++ [idx]) right
      else johnsonLoop fuel rest left (idx :: right)

/-- The left/right partial sequences produced by `johnsons_rule` just before
the final `return left + right`. -/
def johnsonParts (processing_times : List (ℚ × ℚ)) : List ℕ × List ℕ :=
  johnsonLoop processing_times.length processing_times.enum [] []

/-- `johnsons_rule(processing_times)` from `src/flow.py`. -/
def johnsons_rule (processing_times : List (ℚ × ℚ)) : List ℕ :=
  (johnsonParts processing_times).1 ++ (johnsonParts processing_times).2

/-- The loop of `calculate_schedule`, carrying the previous finish times on
both machines (`fp1 = finish_m1[i-1]`, `fp2 = finish_m2[i-1]`, both 0 before
the first iteration).  Returns `(start_m1, finish_m1, start_m2, finish_m2)`. -/
def scheduleAux (pt : List (ℚ × ℚ)) :
    List ℕ → ℚ → ℚ → List ℚ × List ℚ × List ℚ × List ℚ
  | [], _, _ => ([], [], [], [])
  | idx :: rest, fp1, fp2 =>
    let p := pt.getD idx (0, 0)
    let f1 := fp1 + p.1
    let s2 := max fp2 f1
    let f2 := s2 + p.2
    let S := scheduleAux pt rest f1 f2
    (fp1 :: S.1, f1 :: S.2.1, s2 :: S.2.2.1, f2 :: S.2.2.2)

/-- `calculate_schedule(processing_times, sequence)` from `src/flow.py`. -/
def calculate_schedule (processing_times : List (ℚ × ℚ)) (sequence : List ℕ) :
    List ℚ × List ℚ × List ℚ × List ℚ :=
  scheduleAux processing_times sequence 0 0

/-- The `for i in range(1, len(start_m2))` loop of `calculate_delays`:
accumulates `start_m2[i] - finish_m2[i-1]` whenever that gap is positive. -/
def gapSum : List ℚ → List ℚ → ℚ
  | _ :: b :: s, f :: fs =>
    (if 0 < b - f then b - f else 0) + gapSum (b :: s) fs
  | _, _ => 0

/-- `calculate_delays` from `src/flow.py`.  Python indexes `finish_m1[-1]`
and `start_m2[0]`, which raise `IndexError` on empty lists; that is modelled
by the `Except` error case.  `start_m1` is passed but unused, as in the
source. -/
def calculate_delays (start_m1 finish_m1 start_m2 finish_m2 : List ℚ)
    (makespan : ℚ) : Except String (ℚ × ℚ) :=
  match finish_m1.getLast?, start_m2.head? with
  | some f1last, some s2head =>
    Except.ok (makespan - f1last, s2head + gapSum start_m2 finish_m2)
  | _, _ => Except.error "IndexError: list index out of range"

/-- `calculate_metrics(finish_m1, finish_m2, start_m1, start_m2)` from
`src/flow.py`.  `finish_m2[-1]` on an empty list raises `IndexError`;
dividing by a zero makespan raises `ZeroDivisionError`.  On success returns
`(makespan, delay_m1, delay_m2, average_delay, utilization)`. -/
def calculate_metrics (finish_m1 finish_m2 start_m1 start_m2 : List ℚ) :
    Except String (ℚ × ℚ × ℚ × ℚ × ℚ) :=
  match finish_m2.getLast? with
  | none => Except.error "IndexError: list index out of range"
  | some makespan =>
    match calculate_delays start_m1 finish_m1 start_m2 finish_m2 makespan with
    | Except.error e => Except.error e
    | Except.ok (delay_m1, delay_m2) =>
      if makespan = 0 then Except.error "ZeroDivisionError: division by zero"
      else
        let average_delay := ((delay_m1 / makespan) + (delay_m2 / makespan)) / 2
        Except.ok (makespan, delay_m1, delay_m2, average_delay, 1 - average_delay)

/-- The "Calculate Optimal Sequence" button handler (`src/flow.py`, lines
112-124): validate that no processing time is negative (one combined check
over all rows, one error message), and only in the `else` branch run the
sequencer, the simulator and the metrics calculator. -/
def run_calculation (processing_times : List (ℚ × ℚ)) :
    Except String (List ℕ × (List ℚ × List ℚ × List ℚ × List ℚ) × (ℚ × ℚ × ℚ × ℚ × ℚ)) :=
  if processing_times.any (fun p => decide (p.1 < 0) || decide (p.2 < 0)) then
    Except.error "Processing times must be non-negative!"
  else
    let sequence := johnsons_rule processing_times
    let S := calculate_schedule processing_times sequence
    match calculate_metrics S.2.1 S.2.2.2 S.1 S.2.2.1 with
    | Except.error e => Except.error e
    | Except.ok m => Except.ok (sequence, S, m)

/-- `default_p1` from `src/flow.py`. -/
def default_p1 : List ℚ := [3, 6, 2, 7, 6, 5, 5, 3, 6, 10]

/-- `default_p2` from `src/flow.py`. -/
def default_p2 : List ℚ := [5, 2, 8, 6, 6, 9, 4, 2, 8, 4]

/-- The default `processing_times = list(zip(...))` the app computes with
ten tasks. -/
def default_tasks : List (ℚ × ℚ) := default_p1.zip default_p2

/-! ### Properties of the sequencer's selection step -/

theorem extractMin_eq_none {t : List (ℕ × ℚ × ℚ)} (h : extractMin t = none) :
    t = [] := by
  cases t with
  | nil => rfl
  | cons x xs =>
    exfalso
    simp only [extractMin] at h
    cases hxs : extractMin xs with
    | none => rw [hxs] at h; exact Option.noConfusion h
    | some p =>
      rw [hxs] at h
      by_cases hle : jkey x ≤ jkey p.1 <;> simp [hle] at h

theorem extractMin_spec :
    ∀ {t : List (ℕ × ℚ × ℚ)} {m : ℕ × ℚ × ℚ} {rest : List (ℕ × ℚ × ℚ)},
    extractMin t = some (m, rest) →
    ∃ front back, t = front ++ m :: back ∧ rest = front ++ back ∧
      (∀ x ∈ front, jkey m < jkey x) ∧ (∀ x ∈ t, jkey m ≤ jkey x) := by
  intro t
  induction t with
  | nil => intro m rest h; exact Option.noConfusion h
  | cons x xs ih =>
    intro m rest h
    simp only [extractMin] at h
    cases hxs : extractMin xs with
    | none =>
      rw [hxs] at h
      obtain ⟨rfl, rfl⟩ : x = m ∧ ([] : List (ℕ × ℚ × ℚ)) = rest := by
        simpa using h
      have hxsnil : xs = [] := extractMin_eq_none hxs
      subst hxsnil
      exact ⟨[], [], rfl, rfl, by simp, by simp⟩
    | some p =>
      obtain ⟨m', r'⟩ := p
      rw [hxs] at h
      replace h : (if jkey x ≤ jkey m' then some (x, xs)
          else some (m', x :: r')) = some (m, rest) := h
      obtain ⟨f', b', hxseq, hr', hfront', hglob'⟩ := ih hxs
      by_cases hle : jkey x ≤ jkey m'
      · rw [if_pos hle] at h
        obtain ⟨rfl, rfl⟩ : x = m ∧ xs = rest := by simpa using h
        refine ⟨[], xs, rfl, rfl, by simp, ?_⟩
        intro y hy
        rcases List.mem_cons.mp hy with rfl | hy
        · exact le_refl _
        · exact le_trans hle (hglob' y hy)
      · rw [if_neg hle] at h
        obtain ⟨rfl, rfl⟩ : m' = m ∧ x :: r' = rest := by simpa using h
        refine ⟨x :: f', b', by simp [hxseq], by simp [hr'], ?_, ?_⟩
        · intro y hy
          rcases List.mem_cons.mp hy with rfl | hy
          · exact lt_of_not_le hle
          · exact hfront' y hy
        · intro y hy
          rcases List.mem_cons.mp hy with rfl | hy
          · exact le_of_lt (lt_of_not_le hle)
          · exact hglob' y hy

theorem extractMin_perm {t : List (ℕ × ℚ × ℚ)} {m : ℕ × ℚ × ℚ}
    {rest : List (ℕ × ℚ × ℚ)} (h : extractMin t = some (m, rest)) :
    t.Perm (m :: rest) := by
  obtain ⟨front, back, ht, hrest, -, -⟩ := extractMin_spec h
  rw [ht, hrest]
  exact List.perm_middle

theorem extractMin_length {t : List (ℕ × ℚ × ℚ)} {m : ℕ × ℚ × ℚ}
    {rest : List (ℕ × ℚ × ℚ)} (h : extractMin t = some (m, rest)) :
    t.length = rest.length + 1 := by
  simpa using (extractMin_perm h).length_eq

/-! ### The sequencer's output is a permutation of the task indices -/

theorem johnsonLoop_perm :
    ∀ (fuel : ℕ) (tasks : List (ℕ × ℚ × ℚ)) (left right : List ℕ),
    tasks.length ≤ fuel →
    ((johnsonLoop fuel tasks left right).1 ++
      (johnsonLoop fuel tasks left right).2).Perm
      (left ++ tasks.map Prod.fst ++ right) := by
  intro fuel
  induction fuel with
  | zero =>
    intro tasks left right hlen
    have : tasks = [] := List.length_eq_zero.mp (Nat.le_zero.mp hlen)
    subst this
    simp [johnsonLoop]
  | succ fuel ih =>
    intro tasks left right hlen
    cases hext : extractMin tasks with
    | none =>
      have : tasks = [] := extractMin_eq_none hext
      subst this
      simp [johnsonLoop, extractMin]
    | some p =>
      obtain ⟨⟨idx, p1, p2⟩, rest⟩ := p
      have hrest : rest.length ≤ fuel := by
        have := extractMin_length hext
        omega
      have hmap : (tasks.map Prod.fst).Perm (idx :: rest.map Prod.fst) :=
        (extractMin_perm hext).map Prod.fst
      by_cases hle : p1 ≤ p2
      · have hres :
            johnsonLoop (fuel + 1) tasks left right =
              johnsonLoop fuel rest (left ++ [idx]) right := by
          simp [johnsonLoop, hext, hle]
        rw [hres]
        refine (ih rest (left ++ [idx]) right hrest).trans ?_
        have : (left ++ [idx] ++ rest.map Prod.fst ++ right) =
            left ++ (idx :: rest.map Prod.fst) ++ right := by
          simp
        rw [this]
        exact ((hmap.symm.append_left left).append_right right)
      · have hres :
            johnsonLoop (fuel + 1) tasks left right =
              johnsonLoop fuel rest left (idx :: right) := by
          simp [johnsonLoop, hext, hle]
        rw [hres]
        refine (ih rest left (idx :: right) hrest).trans ?_
        rw [List.append_assoc, List.append_assoc]
        exact List.Perm.append_left left
          (List.perm_middle.trans (hmap.symm.append_right right))

theorem johnsons_rule_perm_range (pt : List (ℚ × ℚ)) :
    (johnsons_rule pt).Perm (List.range pt.length) := by
  have h := johnsonLoop_perm pt.length pt.enum [] [] (by simp)
  simpa [johnsons_rule, johnsonParts, List.enum_map_fst] using h

/-- C1: for every list of numeric pairs with non-negative entries, the
sequence returned by `johnsons_rule` is a permutation of the input indices:
its length equals the task count and it contains each index `0..n-1` exactly
once, with no duplicates and no omissions. -/
theorem johnsons_rule_is_permutation (pt : List (ℚ × ℚ))
    (hnn : ∀ p ∈ pt, 0 ≤ p.1 ∧ 0 ≤ p.2) :
    (johnsons_rule pt).length = pt.length ∧
    (∀ i, i < pt.length → (johnsons_rule pt).count i = 1) ∧
    (johnsons_rule pt).Nodup ∧
    (∀ j ∈ johnsons_rule pt, j < pt.length) := by
  have hperm := johnsons_rule_perm_range pt
  refine ⟨by simpa using hperm.length_eq, ?_, ?_, ?_⟩
  · intro i hi
    rw [hperm.count_eq]
    exact List.count_eq_one_of_mem (List.nodup_range _) (List.mem_range.mpr hi)
  · exact hperm.nodup_iff.mpr (List.nodup_range _)
  · intro j hj
    exact List.mem_range.mp (hperm.mem_iff.mp hj)

/-- Witness for C1 at the concrete input `[(1, 2), (0, 3)]`. -/
theorem johnsons_rule_is_permutation_witness :
    (∀ p ∈ ([((1 : ℚ), (2 : ℚ)), (0, 3)] : List (ℚ × ℚ)), 0 ≤ p.1 ∧ 0 ≤ p.2) ∧
    ((johnsons_rule [((1 : ℚ), (2 : ℚ)), (0, 3)]).length = 2 ∧
     (∀ i, i < 2 → (johnsons_rule [((1 : ℚ), (2 : ℚ)), (0, 3)]).count i = 1) ∧
     (johnsons_rule [((1 : ℚ), (2 : ℚ)), (0, 3)]).Nodup ∧
     (∀ j ∈ johnsons_rule [((1 : ℚ), (2 : ℚ)), (0, 3)], j < 2)) :=
  ⟨by decide, johnsons_rule_is_permutation _ (by decide)⟩

/-- C5: at every iteration of the sequencer loop, the selected task is the
first one, in the current order of the shrinking remaining-task list, whose
single smallest processing time is globally minimal (everything strictly
before it in the list has a strictly larger key, and nothing anywhere has a
smaller one); the selected task is appended to the left list exactly when
`p1 <= p2`, and prepended to the right list exactly when `p1 > p2`, the
remaining tasks keeping their relative order. -/
theorem johnsons_rule_step (tasks : List (ℕ × ℚ × ℚ)) (left right : List ℕ)
    (fuel : ℕ) (hne : tasks ≠ []) :
    ∃ idx p1 p2 front back,
      tasks = front ++ (idx, p1, p2) :: back ∧
      (∀ x ∈ front, min p1 p2 < min x.2.1 x.2.2) ∧
      (∀ x ∈ tasks, min p1 p2 ≤ min x.2.1 x.2.2) ∧
      johnsonLoop (fuel + 1) tasks left right =
        (if p1 ≤ p2 then johnsonLoop fuel (front ++ back) (left ++ [idx]) right
         else johnsonLoop fuel (front ++ back) left (idx :: right)) := by
  cases hext : extractMin tasks with
  | none => exact absurd (extractMin_eq_none hext) hne
  | some p =>
    obtain ⟨⟨idx, p1, p2⟩, rest⟩ := p
    obtain ⟨front, back, ht, hrest, hfront, hglob⟩ := extractMin_spec hext
    refine ⟨idx, p1, p2, front, back, ht, hfront, hglob, ?_⟩
    rw [← hrest]
    by_cases hle : p1 ≤ p2
    · simp [johnsonLoop, hext, hle]
    · simp [johnsonLoop, hext, hle]

/-- Witness for C5 at the concrete state with one remaining task `(0, 1, 2)`. -/
theorem johnsons_rule_step_witness :
    (([((0 : ℕ), (1 : ℚ), (2 : ℚ))] : List (ℕ × ℚ × ℚ)) ≠ []) ∧
    (∃ idx p1 p2 front back,
      ([((0 : ℕ), (1 : ℚ), (2 : ℚ))] : List (ℕ × ℚ × ℚ)) =
        front ++ (idx, p1, p2) :: back ∧
      (∀ x ∈ front, min p1 p2 < min x.2.1 x.2.2) ∧
      (∀ x ∈ ([((0 : ℕ), (1 : ℚ), (2 : ℚ))] : List (ℕ × ℚ × ℚ)),
        min p1 p2 ≤ min x.2.1 x.2.2) ∧
      johnsonLoop 1 [((0 : ℕ), (1 : ℚ), (2 : ℚ))] [] [] =
        (if p1 ≤ p2 then johnsonLoop 0 (front ++ back) ([] ++ [idx]) []
         else johnsonLoop 0 (front ++ back) [] (idx :: []))) :=
  ⟨by decide, johnsons_rule_step _ _ _ 0 (by decide)⟩

/-- C9: on the default input (`default_p1`, `default_p2`), the sequencer
places task index 2 at the front of the left list, places task index 9 in
the right list, the resulting sequence is a valid permutation of `0..9`, and
the makespan reported by `calculate_metrics` equals `finish_m2[9]` as
produced by `calculate_schedule` for that exact sequence. -/
theorem default_scenario :
    (johnsonParts default_tasks).1.head? = some 2 ∧
    9 ∈ (johnsonParts default_tasks).2 ∧
    (johnsons_rule default_tasks).Perm (List.range 10) ∧
    (calculate_metrics
      (calculate_schedule default_tasks (johnsons_rule default_tasks)).2.1
      (calculate_schedule default_tasks (johnsons_rule default_tasks)).2.2.2
      (calculate_schedule default_tasks (johnsons_rule default_tasks)).1
      (calculate_schedule default_tasks (johnsons_rule default_tasks)).2.2.1).toOption
      = some
        ((calculate_schedule default_tasks
            (johnsons_rule default_tasks)).2.2.2.getD 9 0,
          3, 2, 5 / 112, 107 / 112) := by
  have hseq : johnsons_rule default_tasks = [2, 0, 5, 4, 8, 3, 9, 6, 7, 1] := by
    decide
  refine ⟨by decide, by decide, by decide, ?_⟩
  rw [hseq]
  have hsched :
      calculate_schedule default_tasks [2, 0, 5, 4, 8, 3, 9, 6, 7, 1] =
        ([0, 2, 5, 10, 16, 22, 29, 39, 44, 47],
         [2, 5, 10, 16, 22, 29, 39, 44, 47, 53],
         [2, 10, 15, 24, 30, 38, 44, 48, 52, 54],
         [10, 15, 24, 30, 38, 44, 48, 52, 54, 56]) := by
    norm_num [calculate_schedule, scheduleAux, max_def, default_tasks,
      default_p1, default_p2]
  rw [hsched]
  norm_num [calculate_metrics, calculate_delays, gapSum, Except.toOption]

/-! ### Properties of the schedule simulator -/

theorem scheduleAux_cons (pt : List (ℚ × ℚ)) (idx : ℕ) (rest : List ℕ)
    (fp1 fp2 : ℚ) :
    scheduleAux pt (idx :: rest) fp1 fp2 =
      (fp1 :: (scheduleAux pt rest (fp1 + (pt.getD idx (0, 0)).1)
          (max fp2 (fp1 + (pt.getD idx (0, 0)).1) + (pt.getD idx (0, 0)).2)).1,
       (fp1 + (pt.getD idx (0, 0)).1) ::
        (scheduleAux pt rest (fp1 + (pt.getD idx (0, 0)).1)
          (max fp2 (fp1 + (pt.getD idx (0, 0)).1) + (pt.getD idx (0, 0)).2)).2.1,
       max fp2 (fp1 + (pt.getD idx (0, 0)).1) ::
        (scheduleAux pt rest (fp1 + (pt.getD idx (0, 0)).1)
          (max fp2 (fp1 + (pt.getD idx (0, 0)).1) + (pt.getD idx (0, 0)).2)).2.2.1,
       (max fp2 (fp1 + (pt.getD idx (0, 0)).1) + (pt.getD idx (0, 0)).2) ::
        (scheduleAux pt rest (fp1 + (pt.getD idx (0, 0)).1)
          (max fp2 (fp1 + (pt.getD idx (0, 0)).1) + (pt.getD idx (0, 0)).2)).2.2.2) :=
  rfl

theorem scheduleAux_length (pt : List (ℚ × ℚ)) :
    ∀ (seq : List ℕ) (fp1 fp2 : ℚ),
    (scheduleAux pt seq fp1 fp2).1.length = seq.length ∧
    (scheduleAux pt seq fp1 fp2).2.1.length = seq.length ∧
    (scheduleAux pt seq fp1 fp2).2.2.1.length = seq.length ∧
    (scheduleAux pt seq fp1 fp2).2.2.2.length = seq.length := by
  intro seq
  induction seq with
  | nil => intro fp1 fp2; simp [scheduleAux]
  | cons idx rest ih =>
    intro fp1 fp2
    rw [scheduleAux_cons]
    simp [ih]

theorem scheduleAux_getD (pt : List (ℚ × ℚ)) :
    ∀ (seq : List ℕ) (fp1 fp2 : ℚ) (i : ℕ), i < seq.length →
    (scheduleAux pt seq fp1 fp2).1.getD i 0 =
      (if i = 0 then fp1 else (scheduleAux pt seq fp1 fp2).2.1.getD (i - 1) 0) ∧
    (scheduleAux pt seq fp1 fp2).2.1.getD i 0 =
      (scheduleAux pt seq fp1 fp2).1.getD i 0 + (pt.getD (seq.getD i 0) (0, 0)).1 ∧
    (scheduleAux pt seq fp1 fp2).2.2.1.getD i 0 =
      max (if i = 0 then fp2 else (scheduleAux pt seq fp1 fp2).2.2.2.getD (i - 1) 0)
        ((scheduleAux pt seq fp1 fp2).2.1.getD i 0) ∧
    (scheduleAux pt seq fp1 fp2).2.2.2.getD i 0 =
      (scheduleAux pt seq fp1 fp2).2.2.1.getD i 0 + (pt.getD (seq.getD i 0) (0, 0)).2 := by
  intro seq
  induction seq with
  | nil => intro fp1 fp2 i hi; exact absurd hi (by simp)
  | cons idx rest ih =>
    intro fp1 fp2 i hi
    rw [scheduleAux_cons]
    cases i with
    | zero => simp
    | succ j =>
      have hj : j < rest.length := by simpa using hi
      obtain ⟨ih1, ih2, ih3, ih4⟩ :=
        ih (fp1 + (pt.getD idx (0, 0)).1)
          (max fp2 (fp1 + (pt.getD idx (0, 0)).1) + (pt.getD idx (0, 0)).2) j hj
      refine ⟨?_, ?_, ?_, ?_⟩
      · simp only [List.getD_cons_succ]
        rw [ih1]
        cases j with
        | zero => simp
        | succ k => simp
      · simp only [List.getD_cons_succ]
        rw [ih2]
      · simp only [List.getD_cons_succ]
        rw [ih3]
        cases j with
        | zero => simp
        | succ k => simp
      · simp only [List.getD_cons_succ]
        rw [ih4]

/-- C2: for every processing-time list with non-negative entries and every
valid permutation sequence over its indices, the four arrays returned by
`calculate_schedule` satisfy: `start_m1[0] = 0` and
`start_m1[i] = finish_m1[i-1]` for `i > 0`;
`start_m2[i] = max(finish_m2[i-1] if i > 0 else 0, finish_m1[i])`; and
`finish_m1[i] = start_m1[i] + p1[sequence[i]]`,
`finish_m2[i] = start_m2[i] + p2[sequence[i]]` for every position `i`. -/
theorem calculate_schedule_timing (pt : List (ℚ × ℚ)) (seq : List ℕ)
    (hnn : ∀ p ∈ pt, 0 ≤ p.1 ∧ 0 ≤ p.2)
    (hperm : seq.Perm (List.range pt.length)) :
    (calculate_schedule pt seq).1.getD 0 0 = 0 ∧
    (∀ i, 0 < i → i < seq.length →
      (calculate_schedule pt seq).1.getD i 0 =
        (calculate_schedule pt seq).2.1.getD (i - 1) 0) ∧
    (∀ i, i < seq.length →
      (calculate_schedule pt seq).2.2.1.getD i 0 =
        max (if 0 < i then (calculate_schedule pt seq).2.2.2.getD (i - 1) 0 else 0)
          ((calculate_schedule pt seq).2.1.getD i 0)) ∧
    (∀ i, i < seq.length →
      (calculate_schedule pt seq).2.1.getD i 0 =
        (calculate_schedule pt seq).1.getD i 0 + (pt.getD (seq.getD i 0) (0, 0)).1) ∧
    (∀ i, i < seq.length →
      (calculate_schedule pt seq).2.2.2.getD i 0 =
        (calculate_schedule pt seq).2.2.1.getD i 0 + (pt.getD (seq.getD i 0) (0, 0)).2) := by
  refine ⟨?_, ?_, ?_, ?_, ?_⟩
  · cases seq with
    | nil => simp [calculate_schedule, scheduleAux]
    | cons idx rest =>
      have h := (scheduleAux_getD pt (idx :: rest) 0 0 0 (by simp)).1
      simpa using h
  · intro i hpos hi
    have h := (scheduleAux_getD pt seq 0 0 i hi).1
    rw [if_neg (Nat.pos_iff_ne_zero.mp hpos)] at h
    exact h
  · intro i hi
    have h := (scheduleAux_getD pt seq 0 0 i hi).2.2.1
    rcases Nat.eq_zero_or_pos i with rfl | hpos
    · simpa using h
    · rw [if_neg (Nat.pos_iff_ne_zero.mp hpos)] at h
      rw [if_pos hpos]
      exact h
  · intro i hi
    exact (scheduleAux_getD pt seq 0 0 i hi).2.1
  · intro i hi
    exact (scheduleAux_getD pt seq 0 0 i hi).2.2.2

/-- Witness for C2 at the concrete input `pt = [(1, 2)]`, `seq = [0]`. -/
theorem calculate_schedule_timing_witness :
    (∀ p ∈ ([((1 : ℚ), (2 : ℚ))] : List (ℚ × ℚ)), 0 ≤ p.1 ∧ 0 ≤ p.2) ∧
    (([0] : List ℕ).Perm (List.range ([((1 : ℚ), (2 : ℚ))] : List (ℚ × ℚ)).length)) ∧
    ((calculate_schedule [((1 : ℚ), (2 : ℚ))] [0]).1.getD 0 0 = 0 ∧
     (∀ i, 0 < i → i < ([0] : List ℕ).length →
       (calculate_schedule [((1 : ℚ), (2 : ℚ))] [0]).1.getD i 0 =
         (calculate_schedule [((1 : ℚ), (2 : ℚ))] [0]).2.1.getD (i - 1) 0) ∧
     (∀ i, i < ([0] : List ℕ).length →
       (calculate_schedule [((1 : ℚ), (2 : ℚ))] [0]).2.2.1.getD i 0 =
         max (if 0 < i then (calculate_schedule [((1 : ℚ), (2 : ℚ))] [0]).2.2.2.getD (i - 1) 0 else 0)
           ((calculate_schedule [((1 : ℚ), (2 : ℚ))] [0]).2.1.getD i 0)) ∧
     (∀ i, i < ([0] : List ℕ).length →
       (calculate_schedule [((1 : ℚ), (2 : ℚ))] [0]).2.1.getD i 0 =
         (calculate_schedule [((1 : ℚ), (2 : ℚ))] [0]).1.getD i 0 +
           (([((1 : ℚ), (2 : ℚ))] : List (ℚ × ℚ)).getD (([0] : List ℕ).getD i 0) (0, 0)).1) ∧
     (∀ i, i < ([0] : List ℕ).length →
       (calculate_schedule [((1 : ℚ), (2 : ℚ))] [0]).2.2.2.getD i 0 =
         (calculate_schedule [((1 : ℚ), (2 : ℚ))] [0]).2.2.1.getD i 0 +
           (([((1 : ℚ), (2 : ℚ))] : List (ℚ × ℚ)).getD (([0] : List ℕ).getD i 0) (0, 0)).2)) :=
  ⟨by decide, by decide,
    calculate_schedule_timing [((1 : ℚ), (2 : ℚ))] [0] (by decide) (by decide)⟩

/-! ### Properties of the metrics calculator -/

theorem getLast?_some {l : List ℚ} (h : l ≠ []) :
    l.getLast? = some (l.getLastD 0) := by
  rw [List.getLastD_eq_getLast?]
  cases hl : l.getLast? with
  | none => exact absurd (List.getLast?_eq_none_iff.mp hl) h
  | some a => rfl

theorem head?_some {l : List ℚ} (h : l ≠ []) : l.head? = some (l.headD 0) := by
  cases l with
  | nil => contradiction
  | cons a t => rfl

theorem headD_eq_getD (l : List ℚ) : l.headD 0 = l.getD 0 0 := by
  cases l <;> rfl

theorem getLastD_eq_getD :
    ∀ (l : List ℚ) (d : ℚ), l ≠ [] → l.getLastD d = l.getD (l.length - 1) 0 := by
  intro l
  induction l with
  | nil => intro d h; contradiction
  | cons a t ih =>
    intro d h
    cases t with
    | nil => rfl
    | cons b s =>
      rw [List.getLastD_cons, ih a (by simp)]
      simp [List.getD_cons_succ, Nat.succ_sub_one]

/-- Evaluation of `calculate_metrics` on non-empty arrays with a nonzero
makespan: it returns exactly the values computed by the source formulas. -/
theorem calculate_metrics_eq (f1 f2 s1 s2 : List ℚ)
    (h1 : f1 ≠ []) (h2 : f2 ≠ []) (hs : s2 ≠ [])
    (hM : f2.getLastD 0 ≠ 0) :
    calculate_metrics f1 f2 s1 s2 =
      Except.ok (f2.getLastD 0, f2.getLastD 0 - f1.getLastD 0,
        s2.headD 0 + gapSum s2 f2,
        ((f2.getLastD 0 - f1.getLastD 0) / f2.getLastD 0 +
          (s2.headD 0 + gapSum s2 f2) / f2.getLastD 0) / 2,
        1 - ((f2.getLastD 0 - f1.getLastD 0) / f2.getLastD 0 +
          (s2.headD 0 + gapSum s2 f2) / f2.getLastD 0) / 2) := by
  unfold calculate_metrics calculate_delays
  rw [getLast?_some h2, getLast?_some h1, head?_some hs]
  rw [List.getLastD_eq_getLast?] at hM
  simp [hM]

theorem pos_part_eq_max (x : ℚ) : (if 0 < x then x else 0) = max 0 x := by
  rcases lt_or_le 0 x with h | h
  · rw [if_pos h, max_eq_right h.le]
  · rw [if_neg (not_lt.mpr h), max_eq_left h]

theorem gapSum_cons_cons (a b f : ℚ) (s fs : List ℚ) :
    gapSum (a :: b :: s) (f :: fs) =
      (if 0 < b - f then b - f else 0) + gapSum (b :: s) fs := rfl

theorem gapSum_nonneg : ∀ (s2 f2 : List ℚ), 0 ≤ gapSum s2 f2 := by
  intro s2
  induction s2 with
  | nil => intro f2; simp [gapSum]
  | cons a t ih =>
    intro f2
    cases t with
    | nil => cases f2 <;> simp [gapSum]
    | cons b s =>
      cases f2 with
      | nil => simp [gapSum]
      | cons f fs =>
        rw [gapSum_cons_cons]
        have h1 : 0 ≤ (if 0 < b - f then b - f else 0) := by
          split <;> linarith
        linarith [ih fs]

theorem gapSum_eq_sum :
    ∀ (s2 f2 : List ℚ), s2.length = f2.length →
    gapSum s2 f2 = ∑ i in Finset.range (s2.length - 1),
      max 0 (s2.getD (i + 1) 0 - f2.getD i 0) := by
  intro s2
  induction s2 with
  | nil => intro f2 h; simp [gapSum]
  | cons a t ih =>
    intro f2 h
    cases t with
    | nil => cases f2 <;> simp [gapSum]
    | cons b s =>
      cases f2 with
      | nil => simp at h
      | cons f fs =>
        have hlen : (b :: s).length = fs.length := by simpa using h
        rw [gapSum_cons_cons, ih fs hlen]
        have hcard : (a :: b :: s).length - 1 = s.length + 1 := by simp
        rw [hcard, Finset.sum_range_succ']
        simp only [List.getD_cons_succ, List.getD_cons_zero]
        rw [pos_part_eq_max]
        have : (b :: s).length - 1 = s.length := by simp
        rw [this]
        ring

/-- C3: for every set of four timing arrays of common length `n >= 1` with
nonzero makespan, `calculate_metrics` (with `calculate_delays`) returns
exactly `makespan = finish_m2[n-1]`,
`delay_m1 = makespan - finish_m1[n-1]`,
`delay_m2 = start_m2[0] + sum over i = 1..n-1 of
max(0, start_m2[i] - finish_m2[i-1])`,
`average_delay = (delay_m1/makespan + delay_m2/makespan) / 2` and
`utilization = 1 - average_delay`. -/
theorem calculate_metrics_formulas (start_m1 finish_m1 start_m2 finish_m2 : List ℚ)
    (n : ℕ) (hn : 1 ≤ n)
    (h1 : start_m1.length = n) (h2 : finish_m1.length = n)
    (h3 : start_m2.length = n) (h4 : finish_m2.length = n)
    (hM : finish_m2.getD (n - 1) 0 ≠ 0) :
    calculate_metrics finish_m1 finish_m2 start_m1 start_m2 =
      Except.ok (finish_m2.getD (n - 1) 0,
        finish_m2.getD (n - 1) 0 - finish_m1.getD (n - 1) 0,
        start_m2.getD 0 0 + ∑ i in Finset.range (n - 1),
          max 0 (start_m2.getD (i + 1) 0 - finish_m2.getD i 0),
        ((finish_m2.getD (n - 1) 0 - finish_m1.getD (n - 1) 0) /
            finish_m2.getD (n - 1) 0 +
          (start_m2.getD 0 0 + ∑ i in Finset.range (n - 1),
            max 0 (start_m2.getD (i + 1) 0 - finish_m2.getD i 0)) /
            finish_m2.getD (n - 1) 0) / 2,
        1 - ((finish_m2.getD (n - 1) 0 - finish_m1.getD (n - 1) 0) /
            finish_m2.getD (n - 1) 0 +
          (start_m2.getD 0 0 + ∑ i in Finset.range (n - 1),
            max 0 (start_m2.getD (i + 1) 0 - finish_m2.getD i 0)) /
            finish_m2.getD (n - 1) 0) / 2) := by
  have hf2 : finish_m2 ≠ [] := by
    intro hnil; rw [hnil] at h4; simp at h4; omega
  have hf1 : finish_m1 ≠ [] := by
    intro hnil; rw [hnil] at h2; simp at h2; omega
  have hs2 : start_m2 ≠ [] := by
    intro hnil; rw [hnil] at h3; simp at h3; omega
  have hM' : finish_m2.getLastD 0 ≠ 0 := by
    rw [getLastD_eq_getD _ _ hf2, h4]; exact hM
  rw [calculate_metrics_eq finish_m1 finish_m2 start_m1 start_m2 hf1 hf2 hs2 hM']
  rw [getLastD_eq_getD _ _ hf2, getLastD_eq_getD _ _ hf1, h4, h2,
    headD_eq_getD, gapSum_eq_sum start_m2 finish_m2 (h3.trans h4.symm), h3]

/-- Witness for C3 at the concrete arrays of the single-task scenario
`start_m1 = [0]`, `finish_m1 = [5]`, `start_m2 = [5]`, `finish_m2 = [8]`. -/
theorem calculate_metrics_formulas_witness :
    (1 ≤ 1 ∧ ([(0 : ℚ)] : List ℚ).length = 1 ∧ ([(5 : ℚ)] : List ℚ).length = 1 ∧
      ([(5 : ℚ)] : List ℚ).getD 0 0 ≠ 0 ∧ ([(8 : ℚ)] : List ℚ).getD 0 0 ≠ 0) ∧
    calculate_metrics [(5 : ℚ)] [(8 : ℚ)] [(0 : ℚ)] [(5 : ℚ)] =
      Except.ok (([(8 : ℚ)] : List ℚ).getD 0 0,
        ([(8 : ℚ)] : List ℚ).getD 0 0 - ([(5 : ℚ)] : List ℚ).getD 0 0,
        ([(5 : ℚ)] : List ℚ).getD 0 0 + ∑ i in Finset.range 0,
          max 0 (([(5 : ℚ)] : List ℚ).getD (i + 1) 0 - ([(8 : ℚ)] : List ℚ).getD i 0),
        ((([(8 : ℚ)] : List ℚ).getD 0 0 - ([(5 : ℚ)] : List ℚ).getD 0 0) /
            ([(8 : ℚ)] : List ℚ).getD 0 0 +
          (([(5 : ℚ)] : List ℚ).getD 0 0 + ∑ i in Finset.range 0,
            max 0 (([(5 : ℚ)] : List ℚ).getD (i + 1) 0 - ([(8 : ℚ)] : List ℚ).getD i 0)) /
            ([(8 : ℚ)] : List ℚ).getD 0 0) / 2,
        1 - ((([(8 : ℚ)] : List ℚ).getD 0 0 - ([(5 : ℚ)] : List ℚ).getD 0 0) /
            ([(8 : ℚ)] : List ℚ).getD 0 0 +
          (([(5 : ℚ)] : List ℚ).getD 0 0 + ∑ i in Finset.range 0,
            max 0 (([(5 : ℚ)] : List ℚ).getD (i + 1) 0 - ([(8 : ℚ)] : List ℚ).getD i 0)) /
            ([(8 : ℚ)] : List ℚ).getD 0 0) / 2) :=
  ⟨⟨le_refl 1, rfl, rfl, by decide, by decide⟩,
    calculate_metrics_formulas [(0 : ℚ)] [(5 : ℚ)] [(5 : ℚ)] [(8 : ℚ)] 1
      (le_refl 1) rfl rfl rfl rfl (by decide)⟩

/-- C7: whenever the makespan (`finish_m2[-1]`) is zero, `calculate_metrics`
fails explicitly with an error instead of returning a degenerate numeric
result (in Python, the division `delay_m1/makespan` raises
`ZeroDivisionError`). -/
theorem calculate_metrics_zero_makespan (finish_m1 finish_m2 start_m1 start_m2 : List ℚ)
    (h : finish_m2.getLast? = some 0) :
    ∃ e, calculate_metrics finish_m1 finish_m2 start_m1 start_m2 =
      Except.error e := by
  unfold calculate_metrics
  rw [h]
  cases hd : calculate_delays start_m1 finish_m1 start_m2 finish_m2 0 with
  | error e => exact ⟨e, by simp [hd]⟩
  | ok p => exact ⟨"ZeroDivisionError: division by zero", by simp [hd]⟩

/-- Witness for C7 at the all-zero single-task arrays. -/
theorem calculate_metrics_zero_makespan_witness :
    (([(0 : ℚ)] : List ℚ).getLast? = some 0) ∧
    (∃ e, calculate_metrics [(0 : ℚ)] [(0 : ℚ)] [(0 : ℚ)] [(0 : ℚ)] =
      Except.error e) :=
  ⟨rfl, calculate_metrics_zero_makespan [(0 : ℚ)] [(0 : ℚ)] [(0 : ℚ)] [(0 : ℚ)] rfl⟩

/-- C8: on the zero-length input the sequencer returns the empty sequence,
the simulator returns four empty timing arrays, and the metrics calculator,
given those empty arrays, reports the empty-input condition as an explicit
error (Python's `IndexError` at `finish_m2[-1]`) instead of computing
metrics or dividing by zero. -/
theorem empty_input_behavior :
    johnsons_rule ([] : List (ℚ × ℚ)) = [] ∧
    calculate_schedule [] [] = ([], [], [], []) ∧
    calculate_metrics [] [] [] [] =
      Except.error "IndexError: list index out of range" :=
  ⟨rfl, rfl, rfl⟩

/-- C6: any input containing a negative processing time is rejected by the
button handler's validation before any computation runs, with the single
combined error message; no sequence, timing arrays or metrics are
produced. -/
theorem negative_input_rejected (pts : List (ℚ × ℚ))
    (h : ∃ p ∈ pts, p.1 < 0 ∨ p.2 < 0) :
    run_calculation pts = Except.error "Processing times must be non-negative!" := by
  have hany : pts.any (fun p => decide (p.1 < 0) || decide (p.2 < 0)) = true := by
    rw [List.any_eq_true]
    obtain ⟨p, hp, hneg⟩ := h
    exact ⟨p, hp, by simpa using hneg⟩
  simp [run_calculation, hany]

/-- Witness for C6 at the concrete input `[(-1, 2)]`. -/
theorem negative_input_rejected_witness :
    (∃ p ∈ ([((-1 : ℚ), (2 : ℚ))] : List (ℚ × ℚ)), p.1 < 0 ∨ p.2 < 0) ∧
    run_calculation [((-1 : ℚ), (2 : ℚ))] =
      Except.error "Processing times must be non-negative!" :=
  ⟨by decide, negative_input_rejected [((-1 : ℚ), (2 : ℚ))] (by decide)⟩

/-! ### Schedule invariants: monotonicity and bounds -/

theorem getD_pair_nonneg (pt : List (ℚ × ℚ))
    (hnn : ∀ p ∈ pt, 0 ≤ p.1 ∧ 0 ≤ p.2) (i : ℕ) :
    0 ≤ (pt.getD i (0, 0)).1 ∧ 0 ≤ (pt.getD i (0, 0)).2 := by
  by_cases h : i < pt.length
  · rw [List.getD_eq_getElem _ _ h]
    exact hnn _ (List.getElem_mem h)
  · rw [List.getD_eq_default _ _ (le_of_not_lt h)]
    exact ⟨le_refl 0, le_refl 0⟩

theorem getLastD_mem {l : List ℚ} (h : l ≠ []) : l.getLastD 0 ∈ l := by
  have e1 := getLast?_some h
  rw [List.getLast?_eq_getLast l h] at e1
  rw [← Option.some.inj e1]
  exact List.getLast_mem h

theorem headD_mem {l : List ℚ} (h : l ≠ []) : l.headD 0 ∈ l := by
  cases l with
  | nil => contradiction
  | cons a t => rw [List.headD_cons]; exact List.mem_cons_self a t

theorem headD_ne_nil {l : List ℚ} (a b : ℚ) (h : l ≠ []) :
    l.headD a = l.headD b := by
  cases l with
  | nil => contradiction
  | cons x t => rfl

theorem scheduleAux_s2_headD (pt : List (ℚ × ℚ)) (seq : List ℕ) (fp1 fp2 : ℚ) :
    fp2 ≤ (scheduleAux pt seq fp1 fp2).2.2.1.headD fp2 := by
  cases seq with
  | nil => simp [scheduleAux]
  | cons idx rest =>
    rw [scheduleAux_cons, List.headD_cons]
    exact le_max_left _ _

/-- Main invariant of the simulator loop: starting from previous finishes
`0 <= fp1 <= fp2`, the `finish_m2` column is a nondecreasing chain above
`fp2`, and every produced timestamp is non-negative and bounded by the last
`finish_m2` entry. -/
theorem scheduleAux_inv (pt : List (ℚ × ℚ))
    (hnn : ∀ p ∈ pt, 0 ≤ p.1 ∧ 0 ≤ p.2) :
    ∀ (seq : List ℕ) (fp1 fp2 : ℚ), 0 ≤ fp1 → fp1 ≤ fp2 →
    List.Chain' (· ≤ ·) (fp2 :: (scheduleAux pt seq fp1 fp2).2.2.2) ∧
    fp2 ≤ (scheduleAux pt seq fp1 fp2).2.2.2.getLastD fp2 ∧
    (∀ x ∈ (scheduleAux pt seq fp1 fp2).1,
      0 ≤ x ∧ x ≤ (scheduleAux pt seq fp1 fp2).2.2.2.getLastD fp2) ∧
    (∀ x ∈ (scheduleAux pt seq fp1 fp2).2.1,
      0 ≤ x ∧ x ≤ (scheduleAux pt seq fp1 fp2).2.2.2.getLastD fp2) ∧
    (∀ x ∈ (scheduleAux pt seq fp1 fp2).2.2.1,
      0 ≤ x ∧ x ≤ (scheduleAux pt seq fp1 fp2).2.2.2.getLastD fp2) ∧
    (∀ x ∈ (scheduleAux pt seq fp1 fp2).2.2.2,
      0 ≤ x ∧ x ≤ (scheduleAux pt seq fp1 fp2).2.2.2.getLastD fp2) := by
  intro seq
  induction seq with
  | nil =>
    intro fp1 fp2 h0 h12
    simp [scheduleAux, List.chain'_singleton]
  | cons idx rest ih =>
    intro fp1 fp2 h0 h12
    obtain ⟨hp1, hp2⟩ := getD_pair_nonneg pt hnn idx
    rw [scheduleAux_cons]
    simp only [List.getLastD_cons]
    have hf1 : 0 ≤ fp1 + (pt.getD idx (0, 0)).1 := by linarith
    have hf12 : fp1 + (pt.getD idx (0, 0)).1 ≤
        max fp2 (fp1 + (pt.getD idx (0, 0)).1) + (pt.getD idx (0, 0)).2 := by
      have := le_max_right fp2 (fp1 + (pt.getD idx (0, 0)).1)
      linarith
    obtain ⟨ch, hle, hb1, hb2, hb3, hb4⟩ := ih
      (fp1 + (pt.getD idx (0, 0)).1)
      (max fp2 (fp1 + (pt.getD idx (0, 0)).1) + (pt.getD idx (0, 0)).2) hf1 hf12
    have hfp2s2 : fp2 ≤ max fp2 (fp1 + (pt.getD idx (0, 0)).1) :=
      le_max_left _ _
    have hs2f2 : max fp2 (fp1 + (pt.getD idx (0, 0)).1) ≤
        max fp2 (fp1 + (pt.getD idx (0, 0)).1) + (pt.getD idx (0, 0)).2 := by
      linarith
    refine ⟨?_, ?_, ?_, ?_, ?_, ?_⟩
    · rw [List.chain'_cons]
      exact ⟨by linarith, ch⟩
    · linarith
    · intro x hx
      rcases List.mem_cons.mp hx with rfl | hx
      · exact ⟨h0, by linarith⟩
      · exact hb1 x hx
    · intro x hx
      rcases List.mem_cons.mp hx with rfl | hx
      · exact ⟨hf1, by linarith⟩
      · exact hb2 x hx
    · intro x hx
      rcases List.mem_cons.mp hx with rfl | hx
      · exact ⟨by linarith, by linarith⟩
      · exact hb3 x hx
    · intro x hx
      rcases List.mem_cons.mp hx with rfl | hx
      · exact ⟨by linarith, hle⟩
      · exact hb4 x hx

theorem gapSum_cons_ne_nil (s f : ℚ) (s2 f2 : List ℚ) (h : s2 ≠ []) :
    gapSum (s :: s2) (f :: f2) =
      (if 0 < s2.headD 0 - f then s2.headD 0 - f else 0) + gapSum s2 f2 := by
  cases s2 with
  | nil => contradiction
  | cons b t => rfl

/-- The "delay on machine 2" quantity (initial wait relative to the seed
`fp2`, plus the accumulated positive idle gaps) never exceeds the total span
from `fp2` to the last `finish_m2` timestamp. -/
theorem scheduleAux_gap_le (pt : List (ℚ × ℚ))
    (hnn : ∀ p ∈ pt, 0 ≤ p.1 ∧ 0 ≤ p.2) :
    ∀ (seq : List ℕ) (fp1 fp2 : ℚ), 0 ≤ fp1 → fp1 ≤ fp2 →
    ((scheduleAux pt seq fp1 fp2).2.2.1.headD fp2 - fp2) +
      gapSum (scheduleAux pt seq fp1 fp2).2.2.1
        (scheduleAux pt seq fp1 fp2).2.2.2 ≤
      (scheduleAux pt seq fp1 fp2).2.2.2.getLastD fp2 - fp2 := by
  intro seq
  induction seq with
  | nil =>
    intro fp1 fp2 h0 h12
    simp [scheduleAux, gapSum]
  | cons idx rest ih =>
    intro fp1 fp2 h0 h12
    obtain ⟨hp1, hp2⟩ := getD_pair_nonneg pt hnn idx
    rw [scheduleAux_cons]
    simp only [List.getLastD_cons, List.headD_cons]
    have hf1 : 0 ≤ fp1 + (pt.getD idx (0, 0)).1 := by linarith
    have hf12 : fp1 + (pt.getD idx (0, 0)).1 ≤
        max fp2 (fp1 + (pt.getD idx (0, 0)).1) + (pt.getD idx (0, 0)).2 := by
      have := le_max_right fp2 (fp1 + (pt.getD idx (0, 0)).1)
      linarith
    have hs2f2 : max fp2 (fp1 + (pt.getD idx (0, 0)).1) ≤
        max fp2 (fp1 + (pt.getD idx (0, 0)).1) + (pt.getD idx (0, 0)).2 := by
      linarith
    cases hrest : rest with
    | nil =>
      rw [show scheduleAux pt [] (fp1 + (pt.getD idx (0, 0)).1)
          (max fp2 (fp1 + (pt.getD idx (0, 0)).1) + (pt.getD idx (0, 0)).2) =
          ([], [], [], []) from rfl]
      simp only [gapSum, List.getLastD]
      linarith [le_max_left fp2 (fp1 + (pt.getD idx (0, 0)).1)]
    | cons y rest' =>
      rw [← hrest]
      have hlen : (scheduleAux pt rest (fp1 + (pt.getD idx (0, 0)).1)
          (max fp2 (fp1 + (pt.getD idx (0, 0)).1) + (pt.getD idx (0, 0)).2)).2.2.1.length
          = rest.length :=
        (scheduleAux_length pt rest _ _).2.2.1
      have hne : (scheduleAux pt rest (fp1 + (pt.getD idx (0, 0)).1)
          (max fp2 (fp1 + (pt.getD idx (0, 0)).1) + (pt.getD idx (0, 0)).2)).2.2.1 ≠ [] := by
        apply List.ne_nil_of_length_pos
        rw [hlen, hrest]
        simp
      rw [gapSum_cons_ne_nil _ _ _ _ hne]
      have hih := ih (fp1 + (pt.getD idx (0, 0)).1)
        (max fp2 (fp1 + (pt.getD idx (0, 0)).1) + (pt.getD idx (0, 0)).2) hf1 hf12
      have hhead := scheduleAux_s2_headD pt rest (fp1 + (pt.getD idx (0, 0)).1)
        (max fp2 (fp1 + (pt.getD idx (0, 0)).1) + (pt.getD idx (0, 0)).2)
      rw [headD_ne_nil 0
        (max fp2 (fp1 + (pt.getD idx (0, 0)).1) + (pt.getD idx (0, 0)).2) hne]
      have hclamp :
          (if 0 < (scheduleAux pt rest (fp1 + (pt.getD idx (0, 0)).1)
              (max fp2 (fp1 + (pt.getD idx (0, 0)).1) + (pt.getD idx (0, 0)).2)).2.2.1.headD
                (max fp2 (fp1 + (pt.getD idx (0, 0)).1) + (pt.getD idx (0, 0)).2) -
              (max fp2 (fp1 + (pt.getD idx (0, 0)).1) + (pt.getD idx (0, 0)).2)
            then (scheduleAux pt rest (fp1 + (pt.getD idx (0, 0)).1)
              (max fp2 (fp1 + (pt.getD idx (0, 0)).1) + (pt.getD idx (0, 0)).2)).2.2.1.headD
                (max fp2 (fp1 + (pt.getD idx (0, 0)).1) + (pt.getD idx (0, 0)).2) -
              (max fp2 (fp1 + (pt.getD idx (0, 0)).1) + (pt.getD idx (0, 0)).2)
            else 0) =
          (scheduleAux pt rest (fp1 + (pt.getD idx (0, 0)).1)
              (max fp2 (fp1 + (pt.getD idx (0, 0)).1) + (pt.getD idx (0, 0)).2)).2.2.1.headD
                (max fp2 (fp1 + (pt.getD idx (0, 0)).1) + (pt.getD idx (0, 0)).2) -
              (max fp2 (fp1 + (pt.getD idx (0, 0)).1) + (pt.getD idx (0, 0)).2) := by
        split <;> linarith
      rw [hclamp]
      have hfp2 := le_max_left fp2 (fp1 + (pt.getD idx (0, 0)).1)
      linarith

/-- Whenever `calculate_metrics` succeeds, the makespan it returns is the
last entry of `finish_m2`. -/
theorem calculate_metrics_makespan (finish_m1 finish_m2 start_m1 start_m2 : List ℚ)
    (r : ℚ × ℚ × ℚ × ℚ × ℚ)
    (hr : calculate_metrics finish_m1 finish_m2 start_m1 start_m2 = Except.ok r) :
    finish_m2.getLast? = some r.1 := by
  unfold calculate_metrics at hr
  cases hl : finish_m2.getLast? with
  | none =>
    rw [hl] at hr
    exact Except.noConfusion
      (show (Except.error "IndexError: list index out of range" :
        Except String (ℚ × ℚ × ℚ × ℚ × ℚ)) = Except.ok r from hr)
  | some m =>
    rw [hl] at hr
    replace hr :
        (match calculate_delays start_m1 finish_m1 start_m2 finish_m2 m with
          | Except.error e => (Except.error e : Except String (ℚ × ℚ × ℚ × ℚ × ℚ))
          | Except.ok (delay_m1, delay_m2) =>
            if m = 0 then Except.error "ZeroDivisionError: division by zero"
            else
              Except.ok (m, delay_m1, delay_m2,
                (delay_m1 / m + delay_m2 / m) / 2,
                1 - (delay_m1 / m + delay_m2 / m) / 2)) = Except.ok r := hr
    cases hd : calculate_delays start_m1 finish_m1 start_m2 finish_m2 m with
    | error e =>
      rw [hd] at hr
      exact Except.noConfusion
        (show (Except.error e : Except String (ℚ × ℚ × ℚ × ℚ × ℚ)) =
          Except.ok r from hr)
    | ok p =>
      obtain ⟨d1, d2⟩ := p
      rw [hd] at hr
      replace hr : (if m = 0 then
          (Except.error "ZeroDivisionError: division by zero" :
            Except String (ℚ × ℚ × ℚ × ℚ × ℚ))
        else Except.ok (m, d1, d2, (d1 / m + d2 / m) / 2,
          1 - (d1 / m + d2 / m) / 2)) = Except.ok r := hr
      by_cases hm : m = 0
      · rw [if_pos hm] at hr; exact Except.noConfusion hr
      · rw [if_neg hm] at hr
        have h' := Except.ok.inj hr
        rw [← h']

/-- C10: for every processing-time list with non-negative entries and every
valid permutation sequence, the `finish_m2` array produced by
`calculate_schedule` is nondecreasing, every value in all four timing arrays
is at most the last `finish_m2` entry, and consequently the makespan read by
`calculate_metrics` (whenever it succeeds) is that latest timestamp. -/
theorem schedule_monotone_and_bounded (pt : List (ℚ × ℚ)) (seq : List ℕ)
    (hnn : ∀ p ∈ pt, 0 ≤ p.1 ∧ 0 ≤ p.2)
    (hperm : seq.Perm (List.range pt.length)) :
    List.Chain' (· ≤ ·) (calculate_schedule pt seq).2.2.2 ∧
    (∀ x ∈ (calculate_schedule pt seq).1,
      x ≤ (calculate_schedule pt seq).2.2.2.getLastD 0) ∧
    (∀ x ∈ (calculate_schedule pt seq).2.1,
      x ≤ (calculate_schedule pt seq).2.2.2.getLastD 0) ∧
    (∀ x ∈ (calculate_schedule pt seq).2.2.1,
      x ≤ (calculate_schedule pt seq).2.2.2.getLastD 0) ∧
    (∀ x ∈ (calculate_schedule pt seq).2.2.2,
      x ≤ (calculate_schedule pt seq).2.2.2.getLastD 0) ∧
    (∀ r, calculate_metrics (calculate_schedule pt seq).2.1
        (calculate_schedule pt seq).2.2.2 (calculate_schedule pt seq).1
        (calculate_schedule pt seq).2.2.1 = Except.ok r →
      r.1 = (calculate_schedule pt seq).2.2.2.getLastD 0) := by
  obtain ⟨ch, hle, hb1, hb2, hb3, hb4⟩ :=
    scheduleAux_inv pt hnn seq 0 0 (le_refl 0) (le_refl 0)
  refine ⟨ch.tail, fun x hx => (hb1 x hx).2, fun x hx => (hb2 x hx).2,
    fun x hx => (hb3 x hx).2, fun x hx => (hb4 x hx).2, ?_⟩
  intro r hr
  have h := calculate_metrics_makespan _ _ _ _ r hr
  by_cases hnil : (calculate_schedule pt seq).2.2.2 = []
  · rw [hnil] at h
    simp at h
  · rw [getLast?_some hnil] at h
    exact (Option.some.inj h).symm

/-- Witness for C10 at the concrete input `pt = [(1, 2)]`, `seq = [0]`. -/
theorem schedule_monotone_and_bounded_witness :
    ((∀ p ∈ ([((1 : ℚ), (2 : ℚ))] : List (ℚ × ℚ)), 0 ≤ p.1 ∧ 0 ≤ p.2) ∧
     (([0] : List ℕ).Perm (List.range ([((1 : ℚ), (2 : ℚ))] : List (ℚ × ℚ)).length))) ∧
    (List.Chain' (· ≤ ·) (calculate_schedule [((1 : ℚ), (2 : ℚ))] [0]).2.2.2 ∧
     (∀ x ∈ (calculate_schedule [((1 : ℚ), (2 : ℚ))] [0]).1,
       x ≤ (calculate_schedule [((1 : ℚ), (2 : ℚ))] [0]).2.2.2.getLastD 0) ∧
     (∀ x ∈ (calculate_schedule [((1 : ℚ), (2 : ℚ))] [0]).2.1,
       x ≤ (calculate_schedule [((1 : ℚ), (2 : ℚ))] [0]).2.2.2.getLastD 0) ∧
     (∀ x ∈ (calculate_schedule [((1 : ℚ), (2 : ℚ))] [0]).2.2.1,
       x ≤ (calculate_schedule [((1 : ℚ), (2 : ℚ))] [0]).2.2.2.getLastD 0) ∧
     (∀ x ∈ (calculate_schedule [((1 : ℚ), (2 : ℚ))] [0]).2.2.2,
       x ≤ (calculate_schedule [((1 : ℚ), (2 : ℚ))] [0]).2.2.2.getLastD 0) ∧
     (∀ r, calculate_metrics (calculate_schedule [((1 : ℚ), (2 : ℚ))] [0]).2.1
         (calculate_schedule [((1 : ℚ), (2 : ℚ))] [0]).2.2.2
         (calculate_schedule [((1 : ℚ), (2 : ℚ))] [0]).1
         (calculate_schedule [((1 : ℚ), (2 : ℚ))] [0]).2.2.1 = Except.ok r →
       r.1 = (calculate_schedule [((1 : ℚ), (2 : ℚ))] [0]).2.2.2.getLastD 0)) :=
  ⟨⟨by decide, by decide⟩,
    schedule_monotone_and_bounded [((1 : ℚ), (2 : ℚ))] [0] (by decide) (by decide)⟩

/-- C4: for every non-empty task list with non-negative processing times
whose resulting makespan is strictly positive, the utilization computed by
the full pipeline (`johnsons_rule`, then `calculate_schedule`, then
`calculate_metrics`) lies in the closed interval `[0, 1]`. -/
theorem pipeline_utilization_in_unit_interval (pts : List (ℚ × ℚ))
    (hne : pts ≠ [])
    (hnn : ∀ p ∈ pts, 0 ≤ p.1 ∧ 0 ≤ p.2)
    (hpos : 0 < (calculate_schedule pts (johnsons_rule pts)).2.2.2.getLastD 0) :
    ∃ m d1 d2 ad u,
      calculate_metrics (calculate_schedule pts (johnsons_rule pts)).2.1
        (calculate_schedule pts (johnsons_rule pts)).2.2.2
        (calculate_schedule pts (johnsons_rule pts)).1
        (calculate_schedule pts (johnsons_rule pts)).2.2.1
        = Except.ok (m, d1, d2, ad, u) ∧ 0 ≤ u ∧ u ≤ 1 := by
  simp only [calculate_schedule] at hpos ⊢
  have hseqlen : (johnsons_rule pts).length = pts.length := by
    simpa using (johnsons_rule_perm_range pts).length_eq
  have hpts : 0 < pts.length := List.length_pos.mpr hne
  obtain ⟨hl1, hl2, hl3, hl4⟩ :=
    scheduleAux_length pts (johnsons_rule pts) (0 : ℚ) 0
  have hf1 : (scheduleAux pts (johnsons_rule pts) 0 0).2.1 ≠ [] :=
    List.ne_nil_of_length_pos (by rw [hl2, hseqlen]; exact hpts)
  have hf2 : (scheduleAux pts (johnsons_rule pts) 0 0).2.2.2 ≠ [] :=
    List.ne_nil_of_length_pos (by rw [hl4, hseqlen]; exact hpts)
  have hs2 : (scheduleAux pts (johnsons_rule pts) 0 0).2.2.1 ≠ [] :=
    List.ne_nil_of_length_pos (by rw [hl3, hseqlen]; exact hpts)
  have hMne : (scheduleAux pts (johnsons_rule pts) 0 0).2.2.2.getLastD 0 ≠ 0 :=
    ne_of_gt hpos
  have heq := calculate_metrics_eq
    (scheduleAux pts (johnsons_rule pts) 0 0).2.1
    (scheduleAux pts (johnsons_rule pts) 0 0).2.2.2
    (scheduleAux pts (johnsons_rule pts) 0 0).1
    (scheduleAux pts (johnsons_rule pts) 0 0).2.2.1 hf1 hf2 hs2 hMne
  obtain ⟨ch, hle, hb1, hb2, hb3, hb4⟩ :=
    scheduleAux_inv pts hnn (johnsons_rule pts) 0 0 (le_refl 0) (le_refl 0)
  have hf1l := hb2 _ (getLastD_mem hf1)
  have hs2h := hb3 _ (headD_mem hs2)
  have hgap := scheduleAux_gap_le pts hnn (johnsons_rule pts) 0 0
    (le_refl 0) (le_refl 0)
  have hgap0 := gapSum_nonneg (scheduleAux pts (johnsons_rule pts) 0 0).2.2.1
    (scheduleAux pts (johnsons_rule pts) 0 0).2.2.2
  set M := (scheduleAux pts (johnsons_rule pts) 0 0).2.2.2.getLastD 0 with hM
  set F := (scheduleAux pts (johnsons_rule pts) 0 0).2.1.getLastD 0 with hF
  set H := (scheduleAux pts (johnsons_rule pts) 0 0).2.2.1.headD 0 with hH
  set G := gapSum (scheduleAux pts (johnsons_rule pts) 0 0).2.2.1
    (scheduleAux pts (johnsons_rule pts) 0 0).2.2.2 with hG
  have hd1nn : 0 ≤ (M - F) / M := div_nonneg (by linarith [hf1l.2]) hpos.le
  have hd1le : (M - F) / M ≤ 1 := (div_le_one hpos).mpr (by linarith [hf1l.1])
  have hd2nn : 0 ≤ (H + G) / M := div_nonneg (by linarith [hs2h.1]) hpos.le
  have hd2le : (H + G) / M ≤ 1 := (div_le_one hpos).mpr (by linarith [hgap])
  exact ⟨M, M - F, H + G, ((M - F) / M + (H + G) / M) / 2,
    1 - ((M - F) / M + (H + G) / M) / 2, heq, by linarith, by linarith⟩

/-- Witness for C4 at the concrete input `[(1, 2)]`. -/
theorem pipeline_utilization_in_unit_interval_witness :
    ((([((1 : ℚ), (2 : ℚ))] : List (ℚ × ℚ)) ≠ []) ∧
     (∀ p ∈ ([((1 : ℚ), (2 : ℚ))] : List (ℚ × ℚ)), 0 ≤ p.1 ∧ 0 ≤ p.2) ∧
     0 < (calculate_schedule [((1 : ℚ), (2 : ℚ))]
        (johnsons_rule [((1 : ℚ), (2 : ℚ))])).2.2.2.getLastD 0) ∧
    (∃ m d1 d2 ad u,
      calculate_metrics
        (calculate_schedule [((1 : ℚ), (2 : ℚ))]
          (johnsons_rule [((1 : ℚ), (2 : ℚ))])).2.1
        (calculate_schedule [((1 : ℚ), (2 : ℚ))]
          (johnsons_rule [((1 : ℚ), (2 : ℚ))])).2.2.2
        (calculate_schedule [((1 : ℚ), (2 : ℚ))]
          (johnsons_rule [((1 : ℚ), (2 : ℚ))])).1
        (calculate_schedule [((1 : ℚ), (2 : ℚ))]
          (johnsons_rule [((1 : ℚ), (2 : ℚ))])).2.2.1
        = Except.ok (m, d1, d2, ad, u) ∧ 0 ≤ u ∧ u ≤ 1) := by
  have hseq : johnsons_rule [((1 : ℚ), (2 : ℚ))] = [0] := by decide
  have hpos : 0 < (calculate_schedule [((1 : ℚ), (2 : ℚ))]
      (johnsons_rule [((1 : ℚ), (2 : ℚ))])).2.2.2.getLastD 0 := by
    rw [hseq]
    norm_num [calculate_schedule, scheduleAux, List.getLastD, max_def]
  exact ⟨⟨by decide, by decide, hpos⟩,
    pipeline_utilization_in_unit_interval [((1 : ℚ), (2 : ℚ))]
      (by decide) (by decide) hpos⟩

end FlowShop
